import Mathlib

/-!
Verification of the task-manager backend against a shallow embedding of the
Rust source in src/src-tauri/src.  The embedding covers:

* title validation (commands/tasks.rs, validate_task_title),
* the flat-list-to-forest tree builder (models/task.rs, build_task_tree),
* the task table operations create_task, update_task and reorder_task
  (commands/tasks.rs), modelled as functions on the list of task rows.

Conventions: Rust String values are lists of Unicode scalar values
(List Char); SQLite INTEGER columns are Int (SQLite computes aggregates
in 64-bit arithmetic, and none of the verified operations can overflow
64 bits from the claims' reachable states).
-/

namespace Eventually

/-- Rust char::is_whitespace: true exactly on the Unicode White_Space code
points (U+0009..U+000D, U+0020, U+0085, U+00A0, U+1680, U+2000..U+200A,
U+2028, U+2029, U+202F, U+205F, U+3000). -/
def rsIsWhitespace (c : Char) : Bool :=
  (9 ≤ c.toNat && c.toNat ≤ 13) || c.toNat == 32 || c.toNat == 0x85 ||
  c.toNat == 0xA0 || c.toNat == 0x1680 ||
  (0x2000 ≤ c.toNat && c.toNat ≤ 0x200A) || c.toNat == 0x2028 ||
  c.toNat == 0x2029 || c.toNat == 0x202F || c.toNat == 0x205F ||
  c.toNat == 0x3000

/-- Rust str::trim: drop leading and trailing whitespace characters. -/
def str_trim (s : List Char) : List Char :=
  ((s.dropWhile rsIsWhitespace).reverse.dropWhile rsIsWhitespace).reverse

/-- Number of bytes of the UTF-8 encoding of one Unicode scalar value. -/
def utf8Size (c : Char) : Nat :=
  if c.toNat < 0x80 then 1
  else if c.toNat < 0x800 then 2
  else if c.toNat < 0x10000 then 3
  else 4

/-- Rust str::len: the length of the string in UTF-8 bytes (not in
characters). -/
def str_len (s : List Char) : Nat := (s.map utf8Size).sum

/-- The error taxonomy of src/src-tauri/src/error.rs.  sqlx RowNotFound is
translated to NotFound ("Record not found"); other storage failures to
DatabaseError. -/
inductive AppError where
  | DatabaseError (message : String)
  | NotFound (message : String)
  | ValidationError (message : String)
  | InvalidInput (message : String)
deriving DecidableEq, Repr

/-- Equality of command results is decidable. -/
instance {ε α : Type} [DecidableEq ε] [DecidableEq α] :
    DecidableEq (Except ε α) := fun a b =>
  match a, b with
  | Except.ok x, Except.ok y =>
    if h : x = y then isTrue (by rw [h]) else
      isFalse (fun hc => h (Except.ok.inj hc))
  | Except.error x, Except.error y =>
    if h : x = y then isTrue (by rw [h]) else
      isFalse (fun hc => h (Except.error.inj hc))
  | Except.ok _, Except.error _ => isFalse (fun hc => Except.noConfusion hc)
  | Except.error _, Except.ok _ => isFalse (fun hc => Except.noConfusion hc)

/-- validate_task_title from commands/tasks.rs: reject when the trimmed
title is empty, or when the trimmed title's byte length exceeds 500. -/
def validate_task_title (title : List Char) : Except AppError Unit :=
  let trimmed := str_trim title
  if trimmed.isEmpty then
    Except.error (AppError.ValidationError ("Title cannot be empty"))
  else if 500 < str_len trimmed then
    Except.error (AppError.ValidationError ("Title is too long (max 500 characters)"))
  else
    Except.ok ()

/-- Task row, from models/task.rs (struct Task) and the tasks table of
db/schema.rs. -/
structure Task where
  id : Int
  title : List Char
  description : Option (List Char)
  category_id : Option Int
  priority : List Char
  parent_id : Option Int
  is_done : Bool
  position : Int
  due_date : Option Int
  created_at : Int
  updated_at : Int
  completed_at : Option Int
deriving DecidableEq, Repr

/-- TaskTree from models/task.rs: a task together with its ordered list of
child subtrees. -/
structure TaskTree where
  task : Task
  subtasks : List TaskTree

/-!
The tree builder (models/task.rs, build_task_tree).  The Rust code stores
the nodes in a HashMap indexed by id and iterates over its values twice
(once to build the parent-to-children index, once to collect the root ids).
A Rust std HashMap's value iteration order is unspecified, so the embedding
takes that order as an explicit argument iter, required (in theorems that
need it) to be a permutation of the input list; both iterations of the
unmutated map see the same order.  Lookup and removal by id do not depend
on that order; the working map is therefore embedded as the list of
still-unconsumed tasks.  The Rust recursion has no fuel: it terminates
because every recursive descent first removes the visited node.  The
embedding consumes one unit of fuel per call so that the recursion is
structural; the nesting depth of the calls is bounded by one per root id
examined, one per parent-map entry examined and one per removed node, so
the depth never exceeds 3 * |tasks| + 3 and the fuel passed by
build_task_tree is never exhausted.
-/

/-- Parent-to-children index of build_task_tree: for a parent id p, the ids
of the tasks carrying parent_id = some p, in iteration order. -/
def parentChildIds (iter : List Task) (p : Int) : List Int :=
  (iter.filter (fun t => t.parent_id == some p)).map (fun t => t.id)

/-- Root-id collection of build_task_tree: ids of the tasks whose parent_id
is absent, in iteration order.  A task whose parent_id points to a missing
id is not collected. -/
def rootIds (iter : List Task) : List Int :=
  (iter.filter (fun t => t.parent_id.isNone)).map (fun t => t.id)

mutual

/-- build_subtree from models/task.rs: remove the node with the given id
from the working map (returning none when it is absent), then recursively
build and attach the children listed under that id. -/
def build_subtree (pm : Int → List Int) (fuel : Nat) (tid : Int)
    (nodes : List Task) : Option TaskTree × List Task :=
  match fuel with
  | 0 => (none, nodes)
  | Nat.succ fuel =>
    match nodes.find? (fun t => t.id == tid) with
    | none => (none, nodes)
    | some t =>
      let rest := nodes.eraseP (fun t => t.id == tid)
      let res := build_children pm fuel (pm tid) rest
      (some ⟨t, res.1⟩, res.2)

/-- The child-attachment loop of build_subtree (and the root loop of
build_task_tree): fold build_subtree over a list of candidate ids,
skipping the ids whose node is gone. -/
def build_children (pm : Int → List Int) (fuel : Nat) (cids : List Int)
    (nodes : List Task) : List TaskTree × List Task :=
  match fuel with
  | 0 => ([], nodes)
  | Nat.succ fuel =>
    match cids with
    | [] => ([], nodes)
    | cid :: cids =>
      match build_subtree pm fuel cid nodes with
      | (none, nodes1) => build_children pm fuel cids nodes1
      | (some tr, nodes1) =>
        let res := build_children pm fuel cids nodes1
        (tr :: res.1, res.2)

end

/-- build_task_tree from models/task.rs: index the tasks by id, collect the
parent-to-children lists and the root ids, then move each root's subtree
out of the index. -/
def build_task_tree (iter tasks : List Task) : List TaskTree :=
  (build_children (parentChildIds iter) (3 * tasks.length + 3) (rootIds iter) tasks).1

mutual

/-- All tasks stored in a tree, root first, depth first. -/
def TaskTree.flatten : TaskTree → List Task
  | ⟨t, subs⟩ => t :: flattenList subs

/-- All tasks stored in a forest, depth first. -/
def flattenList : List TaskTree → List Task
  | [] => []
  | tr :: trs => tr.flatten ++ flattenList trs

end

/-!
The task table operations of commands/tasks.rs, embedded as functions on
the list of task rows (the tasks table, in rowid order).  SQL's
"parent_id IS ?" is SQLite's null-safe equality, so it is Option equality.
The schema's foreign-key checks on parent_id and category_id are not
modelled (the verified invariants do not depend on them, and every concrete
input used below satisfies them vacuously or explicitly).
-/

/-- The rows of the group selected by "WHERE parent_id IS ? AND
category_id IS ?". -/
def groupTasks (s : List Task) (pid cid : Option Int) : List Task :=
  s.filter (fun t => t.parent_id == pid && t.category_id == cid)

/-- The position values of a group. -/
def groupPositions (s : List Task) (pid cid : Option Int) : List Int :=
  (groupTasks s pid cid).map (fun t => t.position)

/-- The number of rows of a group. -/
def groupSize (s : List Task) (pid cid : Option Int) : Nat :=
  (groupTasks s pid cid).length

/-- get_next_position from commands/tasks.rs:
SELECT COALESCE(MAX(position), -1) + 1 over the (parent_id, category_id)
group.  Both-null keys select the both-null group, not a wildcard. -/
def get_next_position (s : List Task) (pid cid : Option Int) : Int :=
  (groupPositions s pid cid).foldl max (-1) + 1

/-- CreateTaskInput from models/task.rs. -/
structure CreateTaskInput where
  title : List Char
  description : Option (List Char)
  category_id : Option Int
  priority : List Char
  parent_id : Option Int
  due_date : Option Int
deriving DecidableEq, Repr

/-- UpdateTaskInput from models/task.rs: every field optional; an absent
field is left out of the UPDATE's SET clause. -/
structure UpdateTaskInput where
  title : Option (List Char)
  description : Option (List Char)
  category_id : Option Int
  priority : Option (List Char)
  parent_id : Option Int
  is_done : Option Bool
  position : Option Int
  due_date : Option Int
deriving DecidableEq, Repr

/-- The rowid SQLite assigns to the next INSERT into the tasks table: one
more than the largest id in use (the table is declared INTEGER PRIMARY KEY
AUTOINCREMENT; without deletions this is max id + 1, and the verified
operation sequences never delete). -/
def next_id (s : List Task) : Int := (s.map (fun t => t.id)).foldl max 0 + 1

/-- The row create_task inserts: server-assigned id, trimmed title, the
next position of the target group, is_done false (schema default),
completed_at null. -/
def newTask (s : List Task) (input : CreateTaskInput) (now : Int) : Task :=
  { id := next_id s
    title := str_trim input.title
    description := input.description
    category_id := input.category_id
    priority := input.priority
    parent_id := input.parent_id
    is_done := false
    position := get_next_position s input.parent_id input.category_id
    due_date := input.due_date
    created_at := now
    updated_at := now
    completed_at := none }

/-- create_task from commands/tasks.rs: validate the title, compute the
next position in the target group, and insert the row with the trimmed
title, is_done false and completed_at null.  The pair is the table after
the call and the command's result; on error the table is untouched. -/
def create_task (s : List Task) (input : CreateTaskInput) (now : Int) :
    List Task × Except AppError Task :=
  match validate_task_title input.title with
  | Except.error e => (s, Except.error e)
  | Except.ok _ => (s ++ [newTask s input now], Except.ok (newTask s input now))

/-- The effect of update_task's dynamically built UPDATE on one row:
updated_at is always refreshed; each supplied field is overwritten; a
supplied is_done also stamps or clears completed_at. -/
def apply_update (input : UpdateTaskInput) (now : Int) (t : Task) : Task :=
  { t with
    updated_at := now
    title := input.title.getD t.title
    description := match input.description with
      | some d => some d
      | none => t.description
    category_id := match input.category_id with
      | some c => some c
      | none => t.category_id
    priority := input.priority.getD t.priority
    parent_id := match input.parent_id with
      | some p => some p
      | none => t.parent_id
    is_done := input.is_done.getD t.is_done
    position := input.position.getD t.position
    due_date := match input.due_date with
      | some d => some d
      | none => t.due_date
    completed_at := match input.is_done with
      | some b => if b then some now else none
      | none => t.completed_at }

/-- update_task from commands/tasks.rs: validate a supplied title, run the
built UPDATE on every row whose id matches, and return the first updated
row (fetch_one of RETURNING *); zero updated rows surface as sqlx
RowNotFound, hence NotFound. -/
def update_task (s : List Task) (id : Int) (input : UpdateTaskInput)
    (now : Int) : List Task × Except AppError Task :=
  match (match input.title with
         | some ttl => validate_task_title ttl
         | none => Except.ok ()) with
  | Except.error e => (s, Except.error e)
  | Except.ok _ =>
    match s.find? (fun u => u.id == id) with
    | none => (s, Except.error (AppError.NotFound ("Record not found")))
    | some t =>
      (s.map (fun u => if u.id = id then apply_update input now u else u),
       Except.ok (apply_update input now t))

/-- The first UPDATE of reorder_task's old < new branch: decrement the
position of every row of the group lying in (old, new]. -/
def shift_down (pid cid : Option Int) (old new : Int) (s : List Task) :
    List Task :=
  s.map (fun t =>
    if t.parent_id = pid ∧ t.category_id = cid ∧
        old < t.position ∧ t.position ≤ new then
      { t with position := t.position - 1 }
    else t)

/-- The first UPDATE of reorder_task's old > new branch: increment the
position of every row of the group lying in [new, old). -/
def shift_up (pid cid : Option Int) (new old : Int) (s : List Task) :
    List Task :=
  s.map (fun t =>
    if t.parent_id = pid ∧ t.category_id = cid ∧
        new ≤ t.position ∧ t.position < old then
      { t with position := t.position + 1 }
    else t)

/-- The final UPDATE of reorder_task: set the moved row's position. -/
def set_position (id newPos : Int) (s : List Task) : List Task :=
  s.map (fun t => if t.id = id then { t with position := newPos } else t)

/-- reorder_task from commands/tasks.rs: look the task up by id (RowNotFound
becomes NotFound and nothing has been written), succeed immediately when the
position is unchanged, otherwise shift the affected siblings and then write
the moved task's new position. -/
def reorder_task (s : List Task) (id newPos : Int) :
    List Task × Except AppError Unit :=
  match s.find? (fun u => u.id == id) with
  | none => (s, Except.error (AppError.NotFound ("Record not found")))
  | some t =>
    if t.position = newPos then (s, Except.ok ())
    else if t.position < newPos then
      (set_position id newPos (shift_down t.parent_id t.category_id t.position newPos s),
       Except.ok ())
    else
      (set_position id newPos (shift_up t.parent_id t.category_id newPos t.position s),
       Except.ok ())

/-- The sequence of table states a concurrent reader can observe while
reorder_task runs: reorder_task executes its SELECT and its one or two
UPDATEs as separate statements on the shared pool, with no surrounding
transaction, so the state after each statement is observable. -/
def reorder_states (s : List Task) (id newPos : Int) : List (List Task) :=
  match s.find? (fun u => u.id == id) with
  | none => [s]
  | some t =>
    if t.position = newPos then [s]
    else if t.position < newPos then
      let s1 := shift_down t.parent_id t.category_id t.position newPos s
      [s, s1, set_position id newPos s1]
    else
      let s1 := shift_up t.parent_id t.category_id newPos t.position s
      [s, s1, set_position id newPos s1]

/-!
Concrete fixtures used by the counterexamples and witnesses below.
-/

/-- A create input with a one-character title, no category, no parent. -/
def demoInput (c : Char) : CreateTaskInput :=
  { title := [c]
    description := none
    category_id := none
    priority := ['M']
    parent_id := none
    due_date := none }

/-- The table after creating one task (title A) in the empty store. -/
def demoS1 : List Task := (create_task [] (demoInput 'A') 0).1

/-- The table after creating tasks A and B. -/
def demoS2 : List Task := (create_task demoS1 (demoInput 'B') 0).1

/-- The table after creating tasks A, B and C, in that order, all in the
null/null group: positions 0, 1, 2. -/
def demoS3 : List Task := (create_task demoS2 (demoInput 'C') 0).1

/-- The task A as created first in the empty store. -/
def demoA : Task :=
  { id := 1, title := ['A'], description := none, category_id := none
    priority := ['M'], parent_id := none, is_done := false, position := 0
    due_date := none, created_at := 0, updated_at := 0, completed_at := none }

/-- The task B as created second. -/
def demoB : Task := { demoA with id := 2, title := ['B'], position := 1 }

/-- The task C as created third. -/
def demoC : Task := { demoA with id := 3, title := ['C'], position := 2 }

/-- A root task for the tree-builder counterexamples. -/
def demoRoot : Task := { demoA with title := ['R'] }

/-- A task whose parent_id refers to an id (999) absent from the input. -/
def demoOrphan : Task :=
  { demoA with id := 2, title := ['O'], parent_id := some 999 }

/-- Parent task of the child-order counterexample. -/
def demoP : Task := { demoA with title := ['P'] }

/-- First child of demoP in input order, position 0. -/
def demoCA : Task :=
  { demoA with id := 2, title := ['a'], parent_id := some 1, position := 0 }

/-- Second child of demoP in input order, position 1. -/
def demoCB : Task :=
  { demoA with id := 3, title := ['b'], parent_id := some 1, position := 1 }

/-!
C6: title validation.
-/

set_option maxRecDepth 80000 in
/-- C6 (amended): validate_task_title fails with a ValidationError exactly
when the trimmed title is empty or the trimmed title's UTF-8 byte length
exceeds 500 (for ASCII titles the byte length equals the character count);
the empty string and a whitespace-only string fail, a 500-ASCII-character
string passes, a 501-ASCII-character string fails, and a title whose
untrimmed length exceeds 500 but whose trimmed length is at most 500
passes. -/
theorem validate_task_title_spec :
    (∀ title : List Char,
        validate_task_title title = Except.ok () ↔
          str_trim title ≠ [] ∧ str_len (str_trim title) ≤ 500) ∧
    (∀ title : List Char,
        validate_task_title title = Except.ok () ∨
          ∃ m, validate_task_title title = Except.error (AppError.ValidationError m)) ∧
    validate_task_title [] ≠ Except.ok () ∧
    validate_task_title [' ', ' ', ' '] ≠ Except.ok () ∧
    validate_task_title (List.replicate 500 'a') = Except.ok () ∧
    validate_task_title (List.replicate 501 'a') ≠ Except.ok () ∧
    validate_task_title (List.replicate 3 ' ' ++ List.replicate 500 'a') =
      Except.ok () := by
  have hdec1 : validate_task_title [] ≠ Except.ok () := by decide
  have hdec2 : validate_task_title [' ', ' ', ' '] ≠ Except.ok () := by decide
  have hdec3 : validate_task_title (List.replicate 500 'a') = Except.ok () := by decide
  have hdec4 : validate_task_title (List.replicate 501 'a') ≠ Except.ok () := by decide
  have hdec5 : validate_task_title (List.replicate 3 ' ' ++ List.replicate 500 'a') =
      Except.ok () := by decide
  refine ⟨?_, ?_, hdec1, hdec2, hdec3, hdec4, hdec5⟩
  · intro title
    simp only [validate_task_title]
    split_ifs with h1 h2
    · rw [List.isEmpty_iff] at h1
      simp [h1]
    · rw [List.isEmpty_iff] at h1
      simp only [List.isEmpty_eq_false] at *
      constructor
      · intro hc
        exact absurd hc (by simp)
      · intro hc
        omega
    · rw [List.isEmpty_iff] at h1
      simp only [List.isEmpty_eq_false] at *
      simp only [true_iff, ne_eq]
      exact ⟨h1, by omega⟩
  · intro title
    simp only [validate_task_title]
    split_ifs <;> simp

set_option maxRecDepth 80000 in
/-- C6 counterexample: a title of 251 two-byte characters has trimmed
character length 251, well below 500 and nonempty, yet validation rejects
it, because the code measures the Rust byte length, not characters. -/
theorem validate_task_title_bytes_counterexample :
    (str_trim (List.replicate 251 (Char.ofNat 0xE9))).length = 251 ∧
    (str_trim (List.replicate 251 (Char.ofNat 0xE9))).length ≤ 500 ∧
    str_trim (List.replicate 251 (Char.ofNat 0xE9)) ≠ [] ∧
    validate_task_title (List.replicate 251 (Char.ofNat 0xE9)) =
      Except.error
        (AppError.ValidationError ("Title is too long (max 500 characters)")) := by
  refine ⟨by decide, by decide, by decide, by decide⟩

/-!
C9: reorder of a missing id.
-/

/-- C9: when no task in the store carries the requested id, reorder_task
returns the NotFound error produced by the failed initial lookup and leaves
the store untouched: the lookup precedes every UPDATE, so no sibling is
shifted. -/
theorem reorder_task_missing_id (s : List Task) (id newPos : Int)
    (h : ∀ t ∈ s, t.id ≠ id) :
    reorder_task s id newPos =
      (s, Except.error (AppError.NotFound ("Record not found"))) := by
  unfold reorder_task
  have hf : s.find? (fun u => u.id == id) = none := by
    rw [List.find?_eq_none]
    intro t ht
    simpa using h t ht
  rw [hf]

/-- Witness for C9 at a concrete store: id 99 is absent from the one-task
store demoS1. -/
theorem reorder_task_missing_id_witness :
    reorder_task demoS1 99 0 =
      (demoS1, Except.error (AppError.NotFound ("Record not found"))) :=
  reorder_task_missing_id demoS1 99 0 (by decide)

/-!
C7 and C10: update_task.
-/

/-- Pointwise version of List.Forall₂ against a mapped copy of a list. -/
lemma forall₂_map_self {α β : Type} (R : α → β → Prop) (f : α → β)
    (l : List α) (h : ∀ a ∈ l, R a (f a)) : List.Forall₂ R l (l.map f) := by
  induction l with
  | nil => exact List.Forall₂.nil
  | cons x xs ih =>
    exact List.Forall₂.cons (h x (List.mem_cons_self x xs))
      (ih (fun a ha => h a (List.mem_cons_of_mem x ha)))

/-- Successful update_task runs decompose into a found row, the mapped
table and the returned updated row. -/
lemma update_task_ok_elim {s : List Task} {id : Int} {input : UpdateTaskInput}
    {now : Int} {s' : List Task} {r : Task}
    (hrun : update_task s id input now = (s', Except.ok r)) :
    ∃ t, s.find? (fun u => u.id == id) = some t ∧
      s' = s.map (fun u => if u.id = id then apply_update input now u else u) ∧
      r = apply_update input now t := by
  unfold update_task at hrun
  split at hrun
  · exact absurd hrun (by simp)
  · split at hrun
    · exact absurd hrun (by simp)
    · rename_i t hfind
      rw [Prod.mk.injEq] at hrun
      exact ⟨t, hfind, hrun.1.symm, (Except.ok.inj hrun.2).symm⟩

/-- C7: after any successful update_task call whose input supplies is_done,
the resulting task (both the returned record and every stored row with the
updated id) has completed_at = now when is_done is true and completed_at
cleared to null when is_done is false; updated_at carries the same
timestamp, and completed_at is non-null exactly when is_done is true. -/
theorem update_task_completed_at_iff (s : List Task) (id : Int)
    (input : UpdateTaskInput) (now : Int) (b : Bool) (s' : List Task) (r : Task)
    (hdone : input.is_done = some b)
    (hrun : update_task s id input now = (s', Except.ok r)) :
    r.is_done = b ∧ r.updated_at = now ∧
    r.completed_at = (if b then some now else none) ∧
    (r.completed_at ≠ none ↔ r.is_done = true) ∧
    ∀ u ∈ s', u.id = id →
      u.is_done = b ∧ u.completed_at = (if b then some now else none) := by
  obtain ⟨t, hfind, hs', hr⟩ := update_task_ok_elim hrun
  subst hs' hr
  refine ⟨by simp [apply_update, hdone], by simp [apply_update],
    by simp [apply_update, hdone], ?_, ?_⟩
  · simp only [apply_update, hdone]
    cases b <;> simp
  · intro u hu hid
    rcases List.mem_map.mp hu with ⟨v, hv, rfl⟩
    by_cases hvid : v.id = id
    · rw [if_pos hvid]
      exact ⟨by simp [apply_update, hdone], by simp [apply_update, hdone]⟩
    · rw [if_neg hvid] at hid
      exact absurd hid hvid

/-- An update input with every optional field absent. -/
def noUpdate : UpdateTaskInput :=
  { title := none, description := none, category_id := none, priority := none
    parent_id := none, is_done := none, position := none, due_date := none }

/-- C10: update_task on an existing id with the all-absent partial input
still succeeds, returning the stored row with only updated_at refreshed,
and rewrites no other row; in general a successful update_task leaves every
input field that was not supplied unchanged on the returned row (including
is_done together with completed_at) and never touches rows with other
ids. -/
theorem update_task_frame (s : List Task) (id : Int) (input : UpdateTaskInput)
    (now : Int) (t : Task)
    (hfind : s.find? (fun u => u.id == id) = some t) :
    (update_task s id noUpdate now).2 = Except.ok { t with updated_at := now } ∧
    List.Forall₂ (fun v u => (v.id = id → u = { v with updated_at := now }) ∧
        (v.id ≠ id → u = v))
      s (update_task s id noUpdate now).1 ∧
    ∀ s' r, update_task s id input now = (s', Except.ok r) →
      r.updated_at = now ∧
      (input.title = none → r.title = t.title) ∧
      (input.description = none → r.description = t.description) ∧
      (input.category_id = none → r.category_id = t.category_id) ∧
      (input.priority = none → r.priority = t.priority) ∧
      (input.parent_id = none → r.parent_id = t.parent_id) ∧
      (input.position = none → r.position = t.position) ∧
      (input.due_date = none → r.due_date = t.due_date) ∧
      (input.is_done = none → r.is_done = t.is_done ∧
        r.completed_at = t.completed_at) ∧
      List.Forall₂ (fun v u => v.id ≠ id → u = v) s s' := by
  have hrunNo : update_task s id noUpdate now =
      (s.map (fun u => if u.id = id then apply_update noUpdate now u else u),
       Except.ok (apply_update noUpdate now t)) := by
    unfold update_task
    rw [show (match noUpdate.title with
              | some ttl => validate_task_title ttl
              | none => Except.ok ()) = Except.ok () from rfl]
    rw [hfind]
  refine ⟨?_, ?_, ?_⟩
  · rw [hrunNo]
    rfl
  · rw [hrunNo]
    apply forall₂_map_self
    intro v hv
    constructor
    · intro hvid
      rw [if_pos hvid]
      rfl
    · intro hvid
      rw [if_neg hvid]
  · intro s' r hrun
    obtain ⟨t2, hfind2, hs', hr⟩ := update_task_ok_elim hrun
    rw [hfind] at hfind2
    have ht2 : t2 = t := (Option.some.inj hfind2).symm
    subst ht2 hs' hr
    refine ⟨by simp [apply_update], ?_, ?_, ?_, ?_, ?_, ?_, ?_, ?_, ?_⟩
    · intro h; simp [apply_update, h]
    · intro h; simp [apply_update, h]
    · intro h; simp [apply_update, h]
    · intro h; simp [apply_update, h]
    · intro h; simp [apply_update, h]
    · intro h; simp [apply_update, h]
    · intro h; simp [apply_update, h]
    · intro h; exact ⟨by simp [apply_update, h], by simp [apply_update, h]⟩
    · apply forall₂_map_self
      intro v hv hvid
      rw [if_neg hvid]

/-- An update input supplying only is_done = true. -/
def demoDoneInput : UpdateTaskInput := { noUpdate with is_done := some true }

/-- The row demoB after being marked done at time 9. -/
def demoBDone : Task :=
  { demoB with updated_at := 9, is_done := true, completed_at := some 9 }

/-- The table demoS2 after marking id 2 done at time 9. -/
def demoS2Done : List Task := [demoA, demoBDone]

/-- Witness for C7 at a concrete call: marking id 2 of demoS2 done at
time 9. -/
theorem update_task_completed_at_iff_witness :
    demoBDone.is_done = true ∧ demoBDone.updated_at = 9 ∧
    demoBDone.completed_at = (if true then some (9 : Int) else none) ∧
    (demoBDone.completed_at ≠ none ↔ demoBDone.is_done = true) ∧
    ∀ u ∈ demoS2Done, u.id = 2 →
      u.is_done = true ∧ u.completed_at = (if true then some (9 : Int) else none) :=
  update_task_completed_at_iff demoS2 2 demoDoneInput 9 true demoS2Done demoBDone
    (by decide) (by decide)

/-- Witness for C10 at a concrete call: the all-absent update of id 2 in
demoS2 at time 7. -/
theorem update_task_frame_witness :
    (update_task demoS2 2 noUpdate 7).2 = Except.ok { demoB with updated_at := 7 } ∧
    List.Forall₂ (fun v u => (v.id = 2 → u = { v with updated_at := 7 }) ∧
        (v.id ≠ 2 → u = v))
      demoS2 (update_task demoS2 2 noUpdate 7).1 ∧
    (∀ s' r, update_task demoS2 2 noUpdate 7 = (s', Except.ok r) →
      r.updated_at = 7 ∧
      (noUpdate.title = none → r.title = demoB.title) ∧
      (noUpdate.description = none → r.description = demoB.description) ∧
      (noUpdate.category_id = none → r.category_id = demoB.category_id) ∧
      (noUpdate.priority = none → r.priority = demoB.priority) ∧
      (noUpdate.parent_id = none → r.parent_id = demoB.parent_id) ∧
      (noUpdate.position = none → r.position = demoB.position) ∧
      (noUpdate.due_date = none → r.due_date = demoB.due_date) ∧
      (noUpdate.is_done = none → r.is_done = demoB.is_done ∧
        r.completed_at = demoB.completed_at) ∧
      List.Forall₂ (fun v u => v.id ≠ 2 → u = v) demoS2 s') :=
  update_task_frame demoS2 2 noUpdate 7 demoB (by decide)

/-!
C2: the reorder shift intervals.
-/

/-- Position the specification's reorder description assigns to each row
when task t moves to newPos: the moved task gets newPos; a same-group
sibling in (old, new] moves down one when old < new; a same-group sibling
in [new, old) moves up one when new < old; everything else keeps its
position.  This definition follows the specification's words and is
compared against the reorder_task embedding of the code. -/
def specReorderNewPosition (t : Task) (newPos : Int) (v : Task) : Int :=
  if v.id = t.id then newPos
  else if v.parent_id = t.parent_id ∧ v.category_id = t.category_id then
    if t.position < newPos ∧ t.position < v.position ∧ v.position ≤ newPos then
      v.position - 1
    else if newPos < t.position ∧ newPos ≤ v.position ∧ v.position < t.position then
      v.position + 1
    else v.position
  else v.position

/-- Core behavior of reorder_task under distinct ids: the call succeeds and
each row's position is rewritten exactly as specReorderNewPosition demands,
with no other field changed. -/
lemma reorder_task_elements (s : List Task) (t : Task) (id newPos : Int)
    (hnodup : (s.map (fun u => u.id)).Nodup)
    (hfind : s.find? (fun u => u.id == id) = some t) :
    (reorder_task s id newPos).2 = Except.ok () ∧
    List.Forall₂
      (fun v u => u = { v with position := specReorderNewPosition t newPos v })
      s (reorder_task s id newPos).1 := by
  have htmem : t ∈ s := List.mem_of_find?_eq_some hfind
  have htid : t.id = id := by simpa using List.find?_some hfind
  have hself : ∀ w : Task, { w with position := w.position } = w := fun w => rfl
  have hobs : reorder_task s id newPos =
      (if t.position = newPos then (s, Except.ok ())
       else if t.position < newPos then
        (set_position id newPos
          (shift_down t.parent_id t.category_id t.position newPos s),
         Except.ok ())
       else
        (set_position id newPos
          (shift_up t.parent_id t.category_id newPos t.position s),
         Except.ok ())) := by
    unfold reorder_task
    rw [hfind]
  split_ifs at hobs with h1 h2
  · rw [hobs]
    refine ⟨rfl, ?_⟩
    apply List.forall₂_same.mpr
    intro v hv
    simp only [specReorderNewPosition]
    by_cases hvt : v.id = t.id
    · rw [if_pos hvt, ← h1]
      have hv_eq : v = t := List.inj_on_of_nodup_map hnodup hv htmem hvt
      rw [← hv_eq, hself]
    · rw [if_neg hvt]
      split_ifs with hg hA hB
      · omega
      · omega
      · rw [hself]
      · rw [hself]
  · rw [hobs]
    refine ⟨rfl, ?_⟩
    unfold set_position shift_down
    rw [List.map_map]
    apply forall₂_map_self
    intro v hv
    dsimp only [Function.comp_apply]
    by_cases hvt : v.id = t.id
    · have hv_eq : v = t := List.inj_on_of_nodup_map hnodup hv htmem hvt
      rw [if_neg (show ¬(v.parent_id = t.parent_id ∧ v.category_id = t.category_id ∧
          t.position < v.position ∧ v.position ≤ newPos) from by rw [hv_eq]; simp)]
      rw [if_pos (show v.id = id from by rw [hv_eq]; exact htid)]
      simp only [specReorderNewPosition]
      rw [if_pos hvt]
    · have hvid : v.id ≠ id := fun hc => hvt (hc.trans htid.symm)
      by_cases hc : v.parent_id = t.parent_id ∧ v.category_id = t.category_id ∧
          t.position < v.position ∧ v.position ≤ newPos
      · rw [if_pos hc]
        dsimp only
        rw [if_neg hvid]
        simp only [specReorderNewPosition]
        rw [if_neg hvt, if_pos ⟨hc.1, hc.2.1⟩, if_pos ⟨h2, hc.2.2.1, hc.2.2.2⟩]
      · rw [if_neg hc, if_neg hvid]
        simp only [specReorderNewPosition]
        rw [if_neg hvt]
        by_cases hgg : v.parent_id = t.parent_id ∧ v.category_id = t.category_id
        · rw [if_pos hgg, if_neg (fun hA => hc ⟨hgg.1, hgg.2, hA.2.1, hA.2.2⟩),
            if_neg (by omega), hself]
        · rw [if_neg hgg, hself]
  · have h3 : newPos < t.position := by omega
    rw [hobs]
    refine ⟨rfl, ?_⟩
    unfold set_position shift_up
    rw [List.map_map]
    apply forall₂_map_self
    intro v hv
    dsimp only [Function.comp_apply]
    by_cases hvt : v.id = t.id
    · have hv_eq : v = t := List.inj_on_of_nodup_map hnodup hv htmem hvt
      rw [if_neg (show ¬(v.parent_id = t.parent_id ∧ v.category_id = t.category_id ∧
          newPos ≤ v.position ∧ v.position < t.position) from by rw [hv_eq]; simp)]
      rw [if_pos (show v.id = id from by rw [hv_eq]; exact htid)]
      simp only [specReorderNewPosition]
      rw [if_pos hvt]
    · have hvid : v.id ≠ id := fun hc => hvt (hc.trans htid.symm)
      by_cases hc : v.parent_id = t.parent_id ∧ v.category_id = t.category_id ∧
          newPos ≤ v.position ∧ v.position < t.position
      · rw [if_pos hc]
        dsimp only
        rw [if_neg hvid]
        simp only [specReorderNewPosition]
        rw [if_neg hvt, if_pos ⟨hc.1, hc.2.1⟩, if_neg (by omega),
          if_pos ⟨h3, hc.2.2.1, hc.2.2.2⟩]
      · rw [if_neg hc, if_neg hvid]
        simp only [specReorderNewPosition]
        rw [if_neg hvt]
        by_cases hgg : v.parent_id = t.parent_id ∧ v.category_id = t.category_id
        · rw [if_pos hgg, if_neg (by omega),
            if_neg (fun hB => hc ⟨hgg.1, hgg.2, hB.2.1, hB.2.2⟩), hself]
        · rw [if_neg hgg, hself]
/-- C2: when the store's ids are distinct and the id resolves to task t,
reorder_task succeeds and rewrites each row's position exactly as the
specification's interval description demands, changing no other field; in
particular the concrete scenario A, B, C created in the null/null group
(positions 0, 1, 2) followed by reorder of A to 2 yields B at 0, C at 1,
A at 2, with no other field changed. -/
theorem reorder_task_shift_spec (s : List Task) (t : Task) (id newPos : Int)
    (hnodup : (s.map (fun u => u.id)).Nodup)
    (hfind : s.find? (fun u => u.id == id) = some t) :
    (reorder_task s id newPos).2 = Except.ok () ∧
    List.Forall₂
      (fun v u => u = { v with position := specReorderNewPosition t newPos v })
      s (reorder_task s id newPos).1 ∧
    demoS3.map (fun u => (u.id, u.position)) = [(1, 0), (2, 1), (3, 2)] ∧
    (reorder_task demoS3 1 2).1 =
      [{ demoA with position := 2 }, { demoB with position := 0 },
       { demoC with position := 1 }] :=
  ⟨(reorder_task_elements s t id newPos hnodup hfind).1,
   (reorder_task_elements s t id newPos hnodup hfind).2,
   by decide, by decide⟩

/-- Witness for C2 at the concrete scenario store: moving task 1 of demoS3
to position 2. -/
theorem reorder_task_shift_spec_witness :
    (reorder_task demoS3 1 2).2 = Except.ok () ∧
    List.Forall₂
      (fun v u => u = { v with position := specReorderNewPosition demoA 2 v })
      demoS3 (reorder_task demoS3 1 2).1 ∧
    demoS3.map (fun u => (u.id, u.position)) = [(1, 0), (2, 1), (3, 2)] ∧
    (reorder_task demoS3 1 2).1 =
      [{ demoA with position := 2 }, { demoB with position := 0 },
       { demoC with position := 1 }] :=
  reorder_task_shift_spec demoS3 demoA 1 2 (by decide) (by decide)

/-!
C1 and C8: the dense-positions invariant.
-/

/-- Density of the position sequences: in every (parent_id, category_id)
group the multiset of positions is exactly 0, 1, ..., k-1 for the k group
members. -/
def DensePositions (s : List Task) : Prop :=
  ∀ pid cid : Option Int,
    (groupPositions s pid cid).Perm
      ((List.range (groupSize s pid cid)).map (Nat.cast : Nat → Int))

/-- C8: reorder_task is not atomic.  Its statements run one at a time on
the shared pool with no transaction, and in the observable state after the
sibling shift but before the moved task's own update (here: moving task 1
of the three-task group 0,1,2 to position 2) two tasks occupy position 0,
so a reader can observe a state violating the dense-positions invariant. -/
theorem reorder_intermediate_state_not_dense :
    shift_down none none 0 2 demoS3 ∈ reorder_states demoS3 1 2 ∧
    groupPositions (shift_down none none 0 2 demoS3) none none = [0, 0, 1] ∧
    ¬ DensePositions (shift_down none none 0 2 demoS3) := by
  refine ⟨by decide, by decide, fun h => ?_⟩
  have h2 := h none none
  revert h2
  decide

/-- C1 counterexample: the claim quantifies over any sequence of create and
reorder operations, but a reorder to an out-of-range position breaks
density: after creating one task and reordering it to position 5, the
null/null group holds the single position 5 instead of 0. -/
theorem reorder_out_of_range_breaks_density :
    groupPositions (reorder_task demoS1 1 5).1 none none = [5] ∧
    groupSize (reorder_task demoS1 1 5).1 none none = 1 ∧
    ¬ DensePositions (reorder_task demoS1 1 5).1 := by
  refine ⟨by decide, by decide, fun h => ?_⟩
  have h2 := h none none
  revert h2
  decide

/-!
C3, C4, C5 counterexamples: the tree builder on concrete inputs.
-/

/-- C3 counterexample: on the input consisting of a root (id 1) and a task
whose parent_id 999 matches no input id, build_task_tree returns only the
root; the orphaned task is dropped from the forest entirely instead of
appearing as a root (the repository's own test expects exactly this
dropping). -/
theorem orphan_task_dropped_counterexample :
    demoOrphan.parent_id = some 999 ∧
    (∀ t ∈ [demoRoot, demoOrphan], t.id ≠ 999) ∧
    flattenList (build_task_tree [demoRoot, demoOrphan] [demoRoot, demoOrphan]) =
      [demoRoot] ∧
    (build_task_tree [demoRoot, demoOrphan] [demoRoot, demoOrphan]).map
      (fun n => n.task.id) = [1] := by
  refine ⟨by decide, by decide, by decide, by decide⟩

/-- C4 counterexample: a single task with a dangling parent reference has
distinct ids, yet the forest built from it is empty, so the total node
count is 0, not the input length 1. -/
theorem build_task_tree_count_counterexample :
    ([demoOrphan].map (fun t => t.id)).Nodup ∧
    flattenList (build_task_tree [demoOrphan] [demoOrphan]) = [] ∧
    [demoOrphan].length = 1 := by
  refine ⟨by decide, by decide, by decide⟩

/-- C5 counterexample: the input list demoP, demoCA, demoCB is in ascending
position order and demoP's children appear in it as id 2 before id 3, but
when the node map's value iteration happens to enumerate demoCB before
demoCA (a legal order for a Rust HashMap, whose iteration order is
unspecified), the built forest lists the subtasks as id 3 before id 2 —
not in the input order. -/
theorem children_order_counterexample :
    [demoP, demoCA, demoCB].map (fun t => t.position) = [0, 0, 1] ∧
    [demoP, demoCB, demoCA].Perm [demoP, demoCA, demoCB] ∧
    (build_task_tree [demoP, demoCB, demoCA] [demoP, demoCA, demoCB]).map
      (fun n => (n.task.id, n.subtasks.map (fun c => c.task.id))) = [(1, [3, 2])] ∧
    (build_task_tree [demoP, demoCA, demoCB] [demoP, demoCA, demoCB]).map
      (fun n => (n.task.id, n.subtasks.map (fun c => c.task.id))) = [(1, [2, 3])] := by
  refine ⟨by decide, by decide, by decide, by decide⟩

/-!
C4: node conservation of the tree builder.
-/

/-- Flatten of an optional tree. -/
def optFlat : Option TaskTree → List Task
  | none => []
  | some tr => tr.flatten

/-- A successful find? pulls the found element to the front up to
permutation, with eraseP removing exactly that element. -/
lemma find?_perm_cons_eraseP {p : Task → Bool} :
    ∀ {l : List Task} {a : Task}, l.find? p = some a → l.Perm (a :: l.eraseP p) := by
  intro l
  induction l with
  | nil => intro a h; simp at h
  | cons x xs ih =>
    intro a h
    by_cases hx : p x
    · rw [List.find?_cons_of_pos _ hx] at h
      obtain rfl := Option.some.inj h
      rw [List.eraseP_cons_of_pos hx]
    · rw [List.find?_cons_of_neg _ hx] at h
      rw [List.eraseP_cons_of_neg hx]
      exact ((ih h).cons x).trans (List.Perm.swap a x (xs.eraseP p))

/-- Conservation of nodes: the tasks stored in the trees that build_subtree
and build_children emit, together with the tasks left in the working map,
are a permutation of the working map they started from. -/
lemma build_conservation (pm : Int → List Int) :
    ∀ fuel : Nat,
      (∀ tid nodes, (optFlat (build_subtree pm fuel tid nodes).1 ++
          (build_subtree pm fuel tid nodes).2).Perm nodes) ∧
      (∀ cids nodes, (flattenList (build_children pm fuel cids nodes).1 ++
          (build_children pm fuel cids nodes).2).Perm nodes) := by
  intro fuel
  induction fuel with
  | zero =>
    constructor
    · intro tid nodes
      simp [build_subtree, optFlat]
    · intro cids nodes
      simp [build_children, flattenList]
  | succ fuel ih =>
    obtain ⟨ihs, ihc⟩ := ih
    constructor
    · intro tid nodes
      simp only [build_subtree]
      cases hfind : nodes.find? (fun t => t.id == tid) with
      | none => simp [optFlat]
      | some t =>
        dsimp only [optFlat]
        rw [show TaskTree.flatten ⟨t,
            (build_children pm fuel (pm tid)
              (nodes.eraseP (fun t => t.id == tid))).1⟩ =
          t :: flattenList (build_children pm fuel (pm tid)
              (nodes.eraseP (fun t => t.id == tid))).1 from rfl]
        have hperm := ihc (pm tid) (nodes.eraseP (fun t => t.id == tid))
        exact (hperm.cons t).trans (find?_perm_cons_eraseP hfind).symm
    · intro cids nodes
      cases cids with
      | nil => simp [build_children, flattenList]
      | cons cid cids =>
        simp only [build_children]
        cases hsub : build_subtree pm fuel cid nodes with
        | mk o nodes1 =>
          have h1 := ihs cid nodes
          rw [hsub] at h1
          cases o with
          | none =>
            dsimp only
            dsimp only [optFlat] at h1
            rw [List.nil_append] at h1
            exact (ihc cids nodes1).trans h1
          | some tr =>
            dsimp only
            dsimp only [optFlat] at h1
            have h2 := ihc cids nodes1
            rw [show flattenList (tr :: (build_children pm fuel cids nodes1).1) =
              tr.flatten ++ flattenList (build_children pm fuel cids nodes1).1 from rfl]
            rw [List.append_assoc]
            exact (h2.append_left tr.flatten).trans h1

/-- C4 (amended): the tasks stored in the built forest form a
sub-permutation of the input: the node count is at most the input length
and no input task is ever duplicated across the forest; the count can fall
short of the input length because tasks with dangling or cyclic parent
references are dropped rather than attached. -/
theorem build_task_tree_flatten_subperm (iter tasks : List Task) :
    (flattenList (build_task_tree iter tasks)).Subperm tasks := by
  have h := (build_conservation (parentChildIds iter) (3 * tasks.length + 3)).2
    (rootIds iter) tasks
  unfold build_task_tree
  exact List.Subperm.trans (List.sublist_append_left _ _).subperm h.subperm

/-!
C3: the roots of the built forest.
-/

/-- The working map only ever loses nodes during build_subtree. -/
lemma build_subtree_rest_subset (pm : Int → List Int) (fuel : Nat) (tid : Int)
    (nodes : List Task) : (build_subtree pm fuel tid nodes).2 ⊆ nodes :=
  fun _ hv =>
    ((build_conservation pm fuel).1 tid nodes).subset (List.mem_append_right _ hv)

/-- The working map only ever loses nodes during build_children. -/
lemma build_children_rest_subset (pm : Int → List Int) (fuel : Nat)
    (cids : List Int) (nodes : List Task) :
    (build_children pm fuel cids nodes).2 ⊆ nodes :=
  fun _ hv =>
    ((build_conservation pm fuel).2 cids nodes).subset (List.mem_append_right _ hv)

/-- Tasks with absent parent_id survive the recursion as long as every id
it is asked to detach belongs (in the ambient task set) to a task with a
present parent_id — which is the case for all parent-map entries. -/
lemma build_preserves_parentless (pm : Int → List Int) (N0 : List Task)
    (hpm : ∀ p c, c ∈ pm p → ∀ u ∈ N0, u.id = c → u.parent_id ≠ none) :
    ∀ fuel : Nat,
      (∀ tid nodes, nodes ⊆ N0 →
        (∀ u ∈ N0, u.id = tid → u.parent_id ≠ none) →
        ∀ v ∈ nodes, v.parent_id = none →
          v ∈ (build_subtree pm fuel tid nodes).2) ∧
      (∀ cids nodes, nodes ⊆ N0 →
        (∀ c ∈ cids, ∀ u ∈ N0, u.id = c → u.parent_id ≠ none) →
        ∀ v ∈ nodes, v.parent_id = none →
          v ∈ (build_children pm fuel cids nodes).2) := by
  intro fuel
  induction fuel with
  | zero =>
    constructor
    · intro tid nodes _ _ v hv _
      simpa [build_subtree] using hv
    · intro cids nodes _ _ v hv _
      simpa [build_children] using hv
  | succ fuel ih =>
    obtain ⟨ihs, ihc⟩ := ih
    constructor
    · intro tid nodes hsub hsafe v hv hvp
      simp only [build_subtree]
      cases hfind : nodes.find? (fun t => t.id == tid) with
      | none => simpa using hv
      | some t =>
        dsimp only
        have hvne : ¬((fun t => t.id == tid) v = true) := by
          simp only [beq_iff_eq]
          intro hc
          exact absurd hvp (hsafe v (hsub hv) hc)
        have hv1 : v ∈ nodes.eraseP (fun t => t.id == tid) :=
          (@List.mem_eraseP_of_neg Task (fun t => t.id == tid) v nodes hvne).mpr hv
        exact ihc (pm tid) _
          (fun u hu => hsub (List.eraseP_subset _ hu))
          (fun c hc => hpm tid c hc) v hv1 hvp
    · intro cids nodes hsub hsafe v hv hvp
      cases cids with
      | nil => simpa [build_children] using hv
      | cons cid cids =>
        simp only [build_children]
        cases hsubt : build_subtree pm fuel cid nodes with
        | mk o nodes1 =>
          have hv1 : v ∈ nodes1 := by
            have h := ihs cid nodes hsub
              (fun u hu hid => hsafe cid (by simp) u hu hid) v hv hvp
            rw [hsubt] at h
            exact h
          have hn1sub : nodes1 ⊆ N0 := by
            intro u hu
            have h := build_subtree_rest_subset pm fuel cid nodes
            rw [hsubt] at h
            exact hsub (h hu)
          cases o with
          | none =>
            dsimp only
            exact ihc cids nodes1 hn1sub
              (fun c hc => hsafe c (List.mem_cons_of_mem cid hc)) v hv1 hvp
          | some tr =>
            dsimp only
            exact ihc cids nodes1 hn1sub
              (fun c hc => hsafe c (List.mem_cons_of_mem cid hc)) v hv1 hvp

/-- The root loop: when the requested ids are distinct and each belongs to
a parentless task still present in the working map, every build_subtree
call succeeds, and the loop emits one tree per requested id, in order. -/
lemma build_children_root_ids (pm : Int → List Int) (N0 : List Task)
    (hpm : ∀ p c, c ∈ pm p → ∀ u ∈ N0, u.id = c → u.parent_id ≠ none) :
    ∀ (rids : List Int) (fuel : Nat) (nodes : List Task),
      rids.length < fuel → rids.Nodup → nodes ⊆ N0 →
      (∀ r ∈ rids, ∃ v ∈ nodes, v.id = r ∧ v.parent_id = none) →
      (build_children pm fuel rids nodes).1.map (fun n => n.task.id) = rids := by
  intro rids
  induction rids with
  | nil =>
    intro fuel nodes _ _ _ _
    cases fuel <;> simp [build_children]
  | cons rid rids ih =>
    intro fuel nodes hfuel hnd hsub hmem
    cases fuel with
    | zero => simp at hfuel
    | succ fuel =>
      simp only [build_children]
      obtain ⟨v, hvmem, hvid, hvp⟩ := hmem rid (List.mem_cons_self rid rids)
      cases fuel with
      | zero =>
        exfalso
        simp at hfuel
      | succ fuel2 =>
        have hfindex : ∃ t, nodes.find? (fun u => u.id == rid) = some t := by
          have hs : (nodes.find? (fun u => u.id == rid)).isSome := by
            rw [List.find?_isSome]
            exact ⟨v, hvmem, by simp [hvid]⟩
          exact Option.isSome_iff_exists.mp hs
        obtain ⟨t, hfind⟩ := hfindex
        have htid : t.id = rid := by simpa using List.find?_some hfind
        simp only [build_subtree]
        rw [hfind]
        dsimp only
        have hrid_notmem : rid ∉ rids := (List.nodup_cons.mp hnd).1
        have hnd' : rids.Nodup := (List.nodup_cons.mp hnd).2
        have herase_sub : nodes.eraseP (fun u => u.id == rid) ⊆ N0 :=
          fun u hu => hsub (List.eraseP_subset _ hu)
        have hn1 := build_children_rest_subset pm fuel2 (pm rid)
          (nodes.eraseP (fun u => u.id == rid))
        have hn1sub : (build_children pm fuel2 (pm rid)
            (nodes.eraseP (fun u => u.id == rid))).2 ⊆ N0 :=
          fun u hu => herase_sub (hn1 hu)
        have hmem' : ∀ r ∈ rids,
            ∃ w ∈ (build_children pm fuel2 (pm rid)
              (nodes.eraseP (fun u => u.id == rid))).2,
              w.id = r ∧ w.parent_id = none := by
          intro r hr
          obtain ⟨w, hwmem, hwid, hwp⟩ := hmem r (List.mem_cons_of_mem rid hr)
          have hrne : r ≠ rid := fun hc => hrid_notmem (hc ▸ hr)
          have hwne : ¬((fun u => u.id == rid) w = true) := by
            simp only [beq_iff_eq]
            intro hc
            exact hrne ((hwid.symm.trans hc))
          have hw1 : w ∈ nodes.eraseP (fun u => u.id == rid) :=
            (@List.mem_eraseP_of_neg Task (fun u => u.id == rid) w nodes hwne).mpr hwmem
          have hw2 := (build_preserves_parentless pm N0 hpm fuel2).2
            (pm rid) (nodes.eraseP (fun u => u.id == rid)) herase_sub
            (fun c hc => hpm rid c hc) w hw1 hwp
          exact ⟨w, hw2, hwid, hwp⟩
        have hrec := ih (Nat.succ fuel2) _
          (by simp only [List.length_cons] at hfuel; omega) hnd' hn1sub hmem'
        simp only [List.map_cons, hrec, htid]

/-- C3 (amended): for distinct ids and any iteration order of the node map,
the roots of the forest returned by build_task_tree are exactly the tasks
whose parent_id is absent, in iteration order; a task whose parent_id
refers to an id not present in the input is NOT returned as a root — it is
dropped from the forest (together with anything only reachable through
it). -/
theorem build_task_tree_roots_are_parentless (iter tasks : List Task)
    (hperm : iter.Perm tasks) (hids : (tasks.map (fun t => t.id)).Nodup) :
    (build_task_tree iter tasks).map (fun n => n.task.id) = rootIds iter := by
  have hpm : ∀ p c, c ∈ parentChildIds iter p →
      ∀ u ∈ tasks, u.id = c → u.parent_id ≠ none := by
    intro p c hc u hu hid
    simp only [parentChildIds, List.mem_map, List.mem_filter] at hc
    obtain ⟨w, ⟨hwi, hwp⟩, hwid⟩ := hc
    have hweq : u = w := List.inj_on_of_nodup_map hids hu (hperm.subset hwi)
      (hid.trans hwid.symm)
    rw [hweq, show w.parent_id = some p from by simpa using hwp]
    simp
  have hfuel : (rootIds iter).length < 3 * tasks.length + 3 := by
    have h1 : (rootIds iter).length ≤ iter.length := by
      simpa [rootIds] using List.length_filter_le (fun t => t.parent_id.isNone) iter
    have h2 : iter.length = tasks.length := hperm.length_eq
    omega
  have hnd : (rootIds iter).Nodup := by
    have h3 : (iter.map (fun t => t.id)).Nodup :=
      ((hperm.map (fun t => t.id)).nodup_iff).mpr hids
    exact ((List.filter_sublist iter).map (fun t => t.id)).nodup h3
  have hmem : ∀ r ∈ rootIds iter, ∃ v ∈ tasks, v.id = r ∧ v.parent_id = none := by
    intro r hr
    simp only [rootIds, List.mem_map, List.mem_filter] at hr
    obtain ⟨w, ⟨hwi, hwp⟩, hwid⟩ := hr
    exact ⟨w, hperm.subset hwi, hwid, by simpa using hwp⟩
  unfold build_task_tree
  exact build_children_root_ids (parentChildIds iter) tasks hpm (rootIds iter)
    (3 * tasks.length + 3) tasks hfuel hnd (fun u hu => hu) hmem

/-- Witness for C3 at a concrete input: the store of demoRoot and the
orphaned task; the forest's root ids are exactly the parentless ids. -/
theorem build_task_tree_roots_are_parentless_witness :
    (build_task_tree [demoRoot, demoOrphan] [demoRoot, demoOrphan]).map
      (fun n => n.task.id) = rootIds [demoRoot, demoOrphan] :=
  build_task_tree_roots_are_parentless [demoRoot, demoOrphan]
    [demoRoot, demoOrphan] (List.Perm.refl _) (by decide)

/-!
C5: the order in which children are attached.
-/

mutual

/-- Order property of a built tree: its direct subtasks appear as a
subsequence of the parent map's child-id list for its id (consumed ids are
skipped), recursively at every level. -/
def TreeOrdered (pm : Int → List Int) : TaskTree → Prop
  | ⟨t, subs⟩ => (subs.map (fun n => n.task.id)).Sublist (pm t.id) ∧
      ForestOrdered pm subs

/-- Every tree of a forest is ordered. -/
def ForestOrdered (pm : Int → List Int) : List TaskTree → Prop
  | [] => True
  | tr :: trs => TreeOrdered pm tr ∧ ForestOrdered pm trs

end

/-- The builder emits trees rooted at the requested ids, as a subsequence
of the requested id list, and every emitted tree is ordered with respect to
the parent map. -/
lemma build_ordered (pm : Int → List Int) :
    ∀ fuel : Nat,
      (∀ tid nodes tr rest, build_subtree pm fuel tid nodes = (some tr, rest) →
        tr.task.id = tid ∧ TreeOrdered pm tr) ∧
      (∀ cids nodes,
        ((build_children pm fuel cids nodes).1.map
          (fun n => n.task.id)).Sublist cids ∧
        ForestOrdered pm (build_children pm fuel cids nodes).1) := by
  intro fuel
  induction fuel with
  | zero =>
    constructor
    · intro tid nodes tr rest h
      simp [build_subtree] at h
    · intro cids nodes
      simp [build_children, ForestOrdered]
  | succ fuel ih =>
    obtain ⟨ihs, ihc⟩ := ih
    constructor
    · intro tid nodes tr rest h
      simp only [build_subtree] at h
      cases hfind : nodes.find? (fun t => t.id == tid) with
      | none =>
        rw [hfind] at h
        simp at h
      | some t =>
        rw [hfind] at h
        dsimp only at h
        rw [Prod.mk.injEq] at h
        obtain ⟨h1, h2⟩ := h
        have htr := Option.some.inj h1
        subst htr
        have htid : t.id = tid := by simpa using List.find?_some hfind
        refine ⟨htid, ?_⟩
        simp only [TreeOrdered]
        constructor
        · rw [htid]
          exact (ihc (pm tid) (nodes.eraseP (fun t => t.id == tid))).1
        · exact (ihc (pm tid) (nodes.eraseP (fun t => t.id == tid))).2
    · intro cids nodes
      cases cids with
      | nil => simp [build_children, ForestOrdered]
      | cons cid cids =>
        simp only [build_children]
        cases hsubt : build_subtree pm fuel cid nodes with
        | mk o nodes1 =>
          cases o with
          | none =>
            dsimp only
            exact ⟨(ihc cids nodes1).1.cons cid, (ihc cids nodes1).2⟩
          | some tr =>
            dsimp only
            obtain ⟨htid, hord⟩ := ihs cid nodes tr nodes1 hsubt
            constructor
            · rw [List.map_cons, htid]
              exact (ihc cids nodes1).1.cons₂ cid
            · simp only [ForestOrdered]
              exact ⟨hord, (ihc cids nodes1).2⟩

/-- C5 (amended): in the built forest, every node's subtasks appear as a
subsequence of the parent map's child-id list for that node (and the roots
as a subsequence of the root-id list) — that is, children follow the node
map's value iteration order, skipping consumed ids.  A Rust HashMap's value
iteration order is unspecified, so this coincides with the input's
ascending-position order exactly when the iteration happens to enumerate
the input in input order, in which case parentChildIds lists each parent's
children in input order. -/
theorem build_task_tree_children_follow_iteration (iter tasks : List Task) :
    ForestOrdered (parentChildIds iter) (build_task_tree iter tasks) ∧
    ((build_task_tree iter tasks).map (fun n => n.task.id)).Sublist
      (rootIds iter) :=
  ⟨((build_ordered (parentChildIds iter) (3 * tasks.length + 3)).2
      (rootIds iter) tasks).2,
   ((build_ordered (parentChildIds iter) (3 * tasks.length + 3)).2
      (rootIds iter) tasks).1⟩

/-!
C1: density of positions over create/reorder sequences.
-/

/-- A fold by max dominates its seed. -/
lemma le_foldl_max (L : List Int) (b : Int) : b ≤ L.foldl max b := by
  induction L generalizing b with
  | nil => exact le_refl b
  | cons x xs ih => exact le_trans (le_max_left b x) (ih (max b x))

/-- A fold by max dominates every list element. -/
lemma mem_le_foldl_max (L : List Int) (x : Int) (hx : x ∈ L) :
    ∀ b, x ≤ L.foldl max b := by
  induction L with
  | nil => cases hx
  | cons y ys ih =>
    intro b
    rcases List.mem_cons.mp hx with rfl | h
    · exact le_trans (le_max_right b x) (le_foldl_max ys (max b x))
    · exact ih h (max b y)

/-- Folding max over 0, ..., k-1 from -1 gives k - 1. -/
lemma foldl_max_range (k : Nat) :
    ((List.range k).map (Nat.cast : Nat → Int)).foldl max (-1) = (k : Int) - 1 := by
  induction k with
  | zero => simp
  | succ k ih =>
    rw [List.range_succ, List.map_append, List.foldl_append, ih]
    simp only [List.map_cons, List.map_nil, List.foldl_cons, List.foldl_nil]
    rw [max_eq_right (by omega)]
    push_cast
    ring

/-- A duplicate-free list of n integers inside [0, n) is a permutation of
0, ..., n-1. -/
lemma nodup_bounded_perm_range (L : List Int) (n : Nat)
    (hnd : L.Nodup) (hb : ∀ x ∈ L, 0 ≤ x ∧ x < (n : Int)) (hl : L.length = n) :
    L.Perm ((List.range n).map (Nat.cast : Nat → Int)) := by
  have hsub : L ⊆ (List.range n).map (Nat.cast : Nat → Int) := by
    intro x hx
    rcases hb x hx with ⟨h0, h1⟩
    refine List.mem_map.mpr ⟨x.toNat, List.mem_range.mpr ?_, ?_⟩
    · omega
    · omega
  refine (hnd.subperm hsub).perm_of_length_le (le_of_eq ?_)
  rw [List.length_map, List.length_range, hl]

/-- Membership in a group. -/
lemma mem_groupTasks {s : List Task} {pid cid : Option Int} {t : Task} :
    t ∈ groupTasks s pid cid ↔
      t ∈ s ∧ t.parent_id = pid ∧ t.category_id = cid := by
  simp [groupTasks, List.mem_filter, and_assoc]

/-- Groups of an appended store. -/
lemma groupTasks_append (s1 s2 : List Task) (pid cid : Option Int) :
    groupTasks (s1 ++ s2) pid cid =
      groupTasks s1 pid cid ++ groupTasks s2 pid cid :=
  List.filter_append _ _

/-- Groups of a mapped store, when the map preserves the group key. -/
lemma groupTasks_map (s : List Task) (F : Task → Task) (pid cid : Option Int)
    (hF : ∀ u, (F u).parent_id = u.parent_id ∧
      (F u).category_id = u.category_id) :
    groupTasks (s.map F) pid cid = (groupTasks s pid cid).map F := by
  unfold groupTasks
  rw [List.filter_map]
  congr 1
  apply List.filter_congr
  intro u _
  simp [Function.comp, (hF u).1, (hF u).2]

/-- The group of a one-row store. -/
lemma groupTasks_singleton (t0 : Task) (pid cid : Option Int) :
    groupTasks [t0] pid cid =
      if t0.parent_id = pid ∧ t0.category_id = cid then [t0] else [] := by
  unfold groupTasks
  by_cases hg : t0.parent_id = pid ∧ t0.category_id = cid
  · rw [if_pos hg]
    simp [hg.1, hg.2]
  · rw [if_neg hg]
    rcases not_and_or.mp hg with hc | hc <;> simp [hc]

/-- The invariant maintained by create/reorder sequences: distinct ids,
every position inside its group's size, and positions distinct within
every group. -/
def StoreInv (s : List Task) : Prop :=
  (s.map (fun t => t.id)).Nodup ∧
  (∀ t ∈ s, 0 ≤ t.position ∧
    t.position < (groupSize s t.parent_id t.category_id : Int)) ∧
  (∀ pid cid : Option Int, (groupPositions s pid cid).Nodup)

/-- The invariant yields the dense-positions property by pigeonhole. -/
lemma StoreInv.dense {s : List Task} (h : StoreInv s) : DensePositions s := by
  intro pid cid
  apply nodup_bounded_perm_range
  · exact h.2.2 pid cid
  · intro x hx
    simp only [groupPositions, List.mem_map] at hx
    obtain ⟨u, hu, rfl⟩ := hx
    obtain ⟨hus, hup, huc⟩ := mem_groupTasks.mp hu
    have hb := h.2.1 u hus
    rw [hup, huc] at hb
    exact hb
  · simp [groupPositions, groupSize]

/-- Under the invariant the next position computed for a create is exactly
the group's size: COALESCE(MAX(position), -1) + 1 with MAX = size - 1, or
0 on the empty group. -/
lemma get_next_position_eq {s : List Task} (h : StoreInv s)
    (pid cid : Option Int) :
    get_next_position s pid cid = (groupSize s pid cid : Int) := by
  have hperm := h.dense pid cid
  have h2 : (groupPositions s pid cid).foldl max (-1) =
      ((List.range (groupSize s pid cid)).map
        (Nat.cast : Nat → Int)).foldl max (-1) := hperm.foldl_eq (-1)
  unfold get_next_position
  rw [h2, foldl_max_range]
  omega

/-- The position rewrite of specReorderNewPosition as a function of the
old position alone (valid inside the moved task's group, where the moved
task is the unique holder of its old position). -/
def specPosFun (tpos newPos p : Int) : Int :=
  if p = tpos then newPos
  else if tpos < newPos ∧ tpos < p ∧ p ≤ newPos then p - 1
  else if newPos < tpos ∧ newPos ≤ p ∧ p < tpos then p + 1
  else p

/-- specPosFun is injective. -/
lemma specPosFun_inj (tpos newPos p q : Int)
    (h : specPosFun tpos newPos p = specPosFun tpos newPos q) : p = q := by
  unfold specPosFun at h
  split_ifs at h <;> omega

/-- specPosFun stays inside [0, k) when its inputs do. -/
lemma specPosFun_bound (tpos newPos p k : Int)
    (h0 : 0 ≤ newPos) (h1 : newPos < k) (htp0 : 0 ≤ tpos) (htp1 : tpos < k)
    (hp0 : 0 ≤ p) (hp1 : p < k) :
    0 ≤ specPosFun tpos newPos p ∧ specPosFun tpos newPos p < k := by
  unfold specPosFun
  split_ifs <;> omega

/-- Inside the moved task's group, the specification rewrite depends only
on the old position. -/
lemma spec_eq_specPosFun {s : List Task} (h : StoreInv s) {t u : Task}
    (htmem : t ∈ s) (humem : u ∈ s)
    (hup : u.parent_id = t.parent_id) (huc : u.category_id = t.category_id)
    (newPos : Int) :
    specReorderNewPosition t newPos u =
      specPosFun t.position newPos u.position := by
  have htg : t ∈ groupTasks s t.parent_id t.category_id :=
    mem_groupTasks.mpr ⟨htmem, rfl, rfl⟩
  have hug : u ∈ groupTasks s t.parent_id t.category_id :=
    mem_groupTasks.mpr ⟨humem, hup, huc⟩
  unfold specReorderNewPosition specPosFun
  by_cases hid : u.id = t.id
  · have hut : u = t := List.inj_on_of_nodup_map h.1 humem htmem hid
    rw [if_pos hid, if_pos (by rw [hut])]
  · rw [if_neg hid, if_pos ⟨hup, huc⟩]
    have hpt : u.position ≠ t.position := fun hc =>
      hid (by rw [List.inj_on_of_nodup_map
        (h.2.2 t.parent_id t.category_id) hug htg hc])
    rw [if_neg hpt]

/-- A functional Forall₂ presents the right-hand list as a map. -/
lemma forall₂_functional {α β : Type} (f : α → β) :
    ∀ {l : List α} {l2 : List β},
      List.Forall₂ (fun v u => u = f v) l l2 → l2 = l.map f := by
  intro l
  induction l with
  | nil =>
    intro l2 h
    cases h
    rfl
  | cons x xs ih =>
    intro l2 h
    cases h with
    | cons hx hxs => rw [List.map_cons, hx, ih hxs]

/-- A store rewrite that fixes the id and the group key, keeps every
position inside its group's size, and is injective on positions within
each group, preserves the invariant. -/
lemma map_positions_inv (s : List Task) (F : Task → Task) (h : StoreInv s)
    (hFfields : ∀ u, (F u).id = u.id ∧ (F u).parent_id = u.parent_id ∧
      (F u).category_id = u.category_id)
    (hFbound : ∀ u ∈ s, 0 ≤ (F u).position ∧
      (F u).position < (groupSize s u.parent_id u.category_id : Int))
    (hFinj : ∀ pid cid : Option Int, ∀ u ∈ groupTasks s pid cid,
      ∀ v ∈ groupTasks s pid cid, (F u).position = (F v).position → u = v) :
    StoreInv (s.map F) := by
  have hgt : ∀ pid cid, groupTasks (s.map F) pid cid =
      (groupTasks s pid cid).map F :=
    fun pid cid => groupTasks_map s F pid cid
      (fun u => ⟨(hFfields u).2.1, (hFfields u).2.2⟩)
  have hgs : ∀ pid cid, groupSize (s.map F) pid cid = groupSize s pid cid := by
    intro pid cid
    unfold groupSize
    rw [hgt, List.length_map]
  refine ⟨?_, ?_, ?_⟩
  · rw [List.map_map]
    rw [show ((fun t => t.id) ∘ F) = (fun t : Task => (F t).id) from rfl]
    rw [List.map_congr_left (fun a _ => (hFfields a).1)]
    exact h.1
  · intro w hw
    obtain ⟨u, hu, rfl⟩ := List.mem_map.mp hw
    refine ⟨(hFbound u hu).1, ?_⟩
    rw [(hFfields u).2.1, (hFfields u).2.2, hgs]
    exact (hFbound u hu).2
  · intro pid cid
    unfold groupPositions
    rw [hgt, List.map_map]
    apply List.Nodup.map_on
    · intro x hx y hy hxy
      exact hFinj pid cid x hx y hy hxy
    · have hs_nd : s.Nodup := List.Nodup.of_map _ h.1
      exact hs_nd.filter _

/-- create_task preserves the invariant: the inserted row receives position
max + 1 = group size, extending the dense block by one. -/
lemma create_inv (s : List Task) (input : CreateTaskInput) (now : Int)
    (h : StoreInv s) : StoreInv (create_task s input now).1 := by
  unfold create_task
  cases hval : validate_task_title input.title with
  | error e => exact h
  | ok u =>
    dsimp only
    have ht0pos : (newTask s input now).position =
        (groupSize s input.parent_id input.category_id : Int) :=
      get_next_position_eq h _ _
    have hid_new : ∀ i ∈ s.map (fun t => t.id), i < next_id s := by
      intro i hi
      have hle := mem_le_foldl_max (s.map (fun t => t.id)) i hi 0
      unfold next_id
      omega
    have hsingle_pos : groupTasks [newTask s input now]
        input.parent_id input.category_id = [newTask s input now] := by
      rw [groupTasks_singleton,
        if_pos (show (newTask s input now).parent_id = input.parent_id ∧
          (newTask s input now).category_id = input.category_id from ⟨rfl, rfl⟩)]
    refine ⟨?_, ?_, ?_⟩
    · rw [List.map_append]
      apply List.Nodup.append h.1 (by simp)
      intro a ha hb
      simp only [List.map_cons, List.map_nil, List.mem_singleton] at hb
      have hlt := hid_new a ha
      rw [hb] at hlt
      exact absurd hlt (lt_irrefl _)
    · intro w hw
      rcases List.mem_append.mp hw with hws | hwt
      · have hold := h.2.1 w hws
        refine ⟨hold.1, lt_of_lt_of_le hold.2 ?_⟩
        unfold groupSize
        rw [groupTasks_append, List.length_append]
        exact_mod_cast Nat.le_add_right _ _
      · rw [List.mem_singleton.mp hwt]
        constructor
        · rw [ht0pos]
          exact_mod_cast Nat.zero_le _
        · rw [ht0pos]
          unfold groupSize
          rw [show (newTask s input now).parent_id = input.parent_id from rfl,
            show (newTask s input now).category_id = input.category_id from rfl,
            groupTasks_append, List.length_append, hsingle_pos]
          rw [show ([newTask s input now] : List Task).length = 1 from rfl]
          exact_mod_cast Nat.lt_succ_self _
    · intro pid cid
      unfold groupPositions
      rw [groupTasks_append, List.map_append]
      by_cases hg : input.parent_id = pid ∧ input.category_id = cid
      · rw [show groupTasks [newTask s input now] pid cid =
            [newTask s input now] from by
          rw [groupTasks_singleton,
            if_pos (show (newTask s input now).parent_id = pid ∧
              (newTask s input now).category_id = cid from ⟨hg.1, hg.2⟩)]]
        apply List.Nodup.append (h.2.2 pid cid) (by simp)
        intro a ha hb
        have hb2 : a = (newTask s input now).position := by simpa using hb
        obtain ⟨w, hwg, rfl⟩ := List.mem_map.mp ha
        obtain ⟨hws, hwp, hwc⟩ := mem_groupTasks.mp hwg
        have hbnd := h.2.1 w hws
        rw [hwp, hwc] at hbnd
        rw [hb2, ht0pos, ← hg.1, ← hg.2] at hbnd
        exact absurd hbnd.2 (lt_irrefl _)
      · rw [show groupTasks [newTask s input now] pid cid = [] from by
          rw [groupTasks_singleton,
            if_neg (show ¬((newTask s input now).parent_id = pid ∧
              (newTask s input now).category_id = cid) from hg)]]
        rw [List.map_nil, List.append_nil]
        exact h.2.2 pid cid

/-- reorder_task with an in-range target position preserves the
invariant. -/
lemma reorder_inv (s : List Task) (t : Task) (id newPos : Int)
    (h : StoreInv s)
    (hfind : s.find? (fun u => u.id == id) = some t)
    (h0 : 0 ≤ newPos)
    (h1 : newPos < (groupSize s t.parent_id t.category_id : Int)) :
    StoreInv (reorder_task s id newPos).1 := by
  have htmem : t ∈ s := List.mem_of_find?_eq_some hfind
  have hbt := h.2.1 t htmem
  have helems := reorder_task_elements s t id newPos h.1 hfind
  have hs2 := forall₂_functional
    (fun v : Task => { v with position := specReorderNewPosition t newPos v })
    helems.2
  rw [hs2]
  apply map_positions_inv s _ h
  · intro u
    exact ⟨rfl, rfl, rfl⟩
  · intro u hu
    dsimp only
    by_cases hid : u.id = t.id
    · have hut : u = t := List.inj_on_of_nodup_map h.1 hu htmem hid
      rw [show specReorderNewPosition t newPos u = newPos from by
        unfold specReorderNewPosition; rw [if_pos hid]]
      refine ⟨h0, ?_⟩
      rw [hut]
      exact h1
    · by_cases hg : u.parent_id = t.parent_id ∧ u.category_id = t.category_id
      · rw [spec_eq_specPosFun h htmem hu hg.1 hg.2 newPos]
        rw [hg.1, hg.2]
        have hbu := h.2.1 u hu
        rw [hg.1, hg.2] at hbu
        exact specPosFun_bound t.position newPos u.position _
          h0 h1 hbt.1 hbt.2 hbu.1 hbu.2
      · rw [show specReorderNewPosition t newPos u = u.position from by
          unfold specReorderNewPosition; rw [if_neg hid, if_neg hg]]
        exact h.2.1 u hu
  · intro pid cid u hu v hv heq
    dsimp only at heq
    obtain ⟨hus, hup, huc⟩ := mem_groupTasks.mp hu
    obtain ⟨hvs, hvp, hvc⟩ := mem_groupTasks.mp hv
    by_cases hgt : t.parent_id = pid ∧ t.category_id = cid
    · rw [spec_eq_specPosFun h htmem hus (hup.trans hgt.1.symm)
          (huc.trans hgt.2.symm) newPos,
        spec_eq_specPosFun h htmem hvs (hvp.trans hgt.1.symm)
          (hvc.trans hgt.2.symm) newPos] at heq
      have hposeq := specPosFun_inj t.position newPos u.position v.position heq
      exact List.inj_on_of_nodup_map (h.2.2 pid cid) hu hv hposeq
    · have huid : u.id ≠ t.id := by
        intro hc
        have hut : u = t := List.inj_on_of_nodup_map h.1 hus htmem hc
        exact hgt ⟨hut ▸ hup, hut ▸ huc⟩
      have hvid : v.id ≠ t.id := by
        intro hc
        have hvt : v = t := List.inj_on_of_nodup_map h.1 hvs htmem hc
        exact hgt ⟨hvt ▸ hvp, hvt ▸ hvc⟩
      have hgu : ¬(u.parent_id = t.parent_id ∧ u.category_id = t.category_id) := by
        intro hc
        exact hgt ⟨hc.1 ▸ hup, hc.2 ▸ huc⟩
      have hgv : ¬(v.parent_id = t.parent_id ∧ v.category_id = t.category_id) := by
        intro hc
        exact hgt ⟨hc.1 ▸ hvp, hc.2 ▸ hvc⟩
      rw [show specReorderNewPosition t newPos u = u.position from by
          unfold specReorderNewPosition; rw [if_neg huid, if_neg hgu],
        show specReorderNewPosition t newPos v = v.position from by
          unfold specReorderNewPosition; rw [if_neg hvid, if_neg hgv]] at heq
      exact List.inj_on_of_nodup_map (h.2.2 pid cid) hu hv heq

/-- The states reachable from the empty store by create_task calls and by
reorder_task calls whose requested position lies inside the moved task's
group range (a reorder to an out-of-range position breaks density; see the
counterexample). -/
inductive Reachable : List Task → Prop where
  | empty : Reachable []
  | create (s : List Task) (input : CreateTaskInput) (now : Int) :
      Reachable s → Reachable (create_task s input now).1
  | reorder (s : List Task) (t : Task) (id newPos : Int) :
      Reachable s → s.find? (fun u => u.id == id) = some t →
      0 ≤ newPos → newPos < (groupSize s t.parent_id t.category_id : Int) →
      Reachable (reorder_task s id newPos).1

/-- Reachable states satisfy the full invariant. -/
lemma reachable_inv : ∀ s, Reachable s → StoreInv s := by
  intro s h
  induction h with
  | empty =>
    refine ⟨by simp, by simp, ?_⟩
    intro pid cid
    simp [groupPositions, groupTasks]
  | create s input now _ ih => exact create_inv s input now ih
  | reorder s t id newPos _ hfind h0 h1 ih =>
    exact reorder_inv s t id newPos ih hfind h0 h1

/-- C1 (amended): starting from the empty store, after any sequence of
create_task calls and of reorder_task calls whose requested position lies
within the moved task's group (0 ≤ new < group size), the multiset of
positions of every (parent_id, category_id) group — null keys matching as
ordinary group keys — is exactly 0, 1, ..., k-1 for the k group members,
with no duplicates and no gaps; create assigns max(position in group) + 1,
i.e. 0 on an empty group.  Without the range restriction the property
fails (see the counterexample). -/
theorem reachable_positions_dense (s : List Task) (h : Reachable s) :
    DensePositions s :=
  (reachable_inv s h).dense

/-- Witness for C1: the concrete three-create-then-reorder run demoS3 with
task 1 moved to position 2 is reachable and dense. -/
theorem reachable_positions_dense_witness :
    DensePositions (reorder_task demoS3 1 2).1 :=
  reachable_positions_dense (reorder_task demoS3 1 2).1
    (Reachable.reorder demoS3 demoA 1 2
      (Reachable.create demoS2 (demoInput 'C') 0
        (Reachable.create demoS1 (demoInput 'B') 0
          (Reachable.create [] (demoInput 'A') 0 Reachable.empty)))
      (by decide) (by decide) (by decide))

end Eventually

